import Mathlib

/-!
Verification development for the `rencfs` encrypted filesystem engine
(`src/encryptedfs.rs`).

The Rust code is shallowly embedded: machine integers (`u64`, `u32`, `u16`,
`usize`) become `Nat` (none of the modelled code paths overflow), `SystemTime`
becomes a `Nat` tick count, fallible operations return `Except FsError`,
and the async state (handle tables, opened-file indices, the handle counter,
inode records and content artifacts) is threaded explicitly through an
`EncryptedFs` state record.  HashMaps are modelled as association lists with
insert-overwrites-key semantics.  External collaborators (the `Cipher`
streaming reader/writer, `stream_util`) are modelled from the spec where
noted in doc comments.
-/

deriving instance DecidableEq for Except

namespace Rencfs

/-- File types, from `FileType` in `encryptedfs.rs` (only `Directory` and
`RegularFile` are live; the other POSIX kinds are commented out in the
source). -/
inductive FileType where
  | Directory
  | RegularFile
deriving DecidableEq, Repr

/-- File attributes, from `FileAttr` in `encryptedfs.rs`.  Timestamps are
naturals (a `SystemTime` tick count); the `u64`/`u32`/`u16` fields are
naturals. -/
structure FileAttr where
  ino : Nat
  size : Nat
  blocks : Nat
  atime : Nat
  mtime : Nat
  ctime : Nat
  crtime : Nat
  kind : FileType
  perm : Nat
  nlink : Nat
  uid : Nat
  gid : Nat
  rdev : Nat
  blksize : Nat
  flags : Nat
deriving DecidableEq, Repr

/-- Sparse attribute-update form, from `SetFileAttr` in `encryptedfs.rs`:
only present (`some`) fields apply. -/
structure SetFileAttr where
  size : Option Nat := none
  atime : Option Nat := none
  mtime : Option Nat := none
  ctime : Option Nat := none
  crtime : Option Nat := none
  perm : Option Nat := none
  uid : Option Nat := none
  gid : Option Nat := none
  rdev : Option Nat := none
  flags : Option Nat := none
deriving DecidableEq, Repr

/-- The all-`None` value produced by `SetFileAttr::default()`. -/
def SetFileAttr.default : SetFileAttr := {}

/-- Builder `SetFileAttr::with_size`. -/
def SetFileAttr.with_size (s : SetFileAttr) (size : Nat) : SetFileAttr :=
  { s with size := some size }

/-- Builder `SetFileAttr::with_atime`. -/
def SetFileAttr.with_atime (s : SetFileAttr) (atime : Nat) : SetFileAttr :=
  { s with atime := some atime }

/-- Builder `SetFileAttr::with_mtime`. -/
def SetFileAttr.with_mtime (s : SetFileAttr) (mtime : Nat) : SetFileAttr :=
  { s with mtime := some mtime }

/-- Builder `SetFileAttr::with_ctime`. -/
def SetFileAttr.with_ctime (s : SetFileAttr) (ctime : Nat) : SetFileAttr :=
  { s with ctime := some ctime }

/-- Builder `SetFileAttr::with_crtime`. -/
def SetFileAttr.with_crtime (s : SetFileAttr) (crtime : Nat) : SetFileAttr :=
  { s with crtime := some crtime }

/-- Builder `SetFileAttr::with_perm`. -/
def SetFileAttr.with_perm (s : SetFileAttr) (perm : Nat) : SetFileAttr :=
  { s with perm := some perm }

/-- Builder `SetFileAttr::with_uid`. -/
def SetFileAttr.with_uid (s : SetFileAttr) (uid : Nat) : SetFileAttr :=
  { s with uid := some uid }

/-- Builder `SetFileAttr::with_gid`. -/
def SetFileAttr.with_gid (s : SetFileAttr) (gid : Nat) : SetFileAttr :=
  { s with gid := some gid }

/-- Builder `SetFileAttr::with_rdev`. -/
def SetFileAttr.with_rdev (s : SetFileAttr) (rdev : Nat) : SetFileAttr :=
  { s with rdev := some rdev }

/-- Builder `SetFileAttr::with_flags`, transcribed exactly from the source
(`encryptedfs.rs` lines 250-254): the body assigns `self.rdev = Some(flags)`,
so it is the `rdev` field that receives the argument, not `flags`. -/
def SetFileAttr.with_flags (s : SetFileAttr) (flags : Nat) : SetFileAttr :=
  { s with rdev := some flags }

/-- Error kinds, from `FsError` in `encryptedfs.rs`.  Payloads that carry only
diagnostic data (`&'static str` messages, `io::Error` sources, backtraces)
are dropped; the `MaxFilesizeExceeded` limit payload is kept because callers
receive the cipher limit through it. -/
inductive FsError where
  | Io
  | SerializeError
  | NotFound
  | InodeNotFound
  | InvalidInput
  | InvalidInodeType
  | InvalidFileHandle
  | AlreadyExists
  | AlreadyOpenForWrite
  | NotEmpty
  | Other
  | InvalidPassword
  | InvalidDataDirStructure
  | MaxFilesizeExceeded (limit : Nat)
deriving DecidableEq, Repr

/-- Attribute merge, from `merge_attr` in `encryptedfs.rs` (lines 2290-2318).
The source applies the present fields one after another; every step touches a
distinct field of `attr` (each timestamp maximum reads only the field it
replaces), so the sequence is written as one simultaneous record update.
`set_attr.rdev` is never applied — faithful to the source, which has no
`if let Some(rdev)` arm. -/
def merge_attr (attr : FileAttr) (set_attr : SetFileAttr) : FileAttr :=
  { attr with
    size := match set_attr.size with
      | some size => size
      | none => attr.size,
    atime := match set_attr.atime with
      | some atime => max atime attr.atime
      | none => attr.atime,
    mtime := match set_attr.mtime with
      | some mtime => max mtime attr.mtime
      | none => attr.mtime,
    ctime := match set_attr.ctime with
      | some ctime => max ctime attr.ctime
      | none => attr.ctime,
    crtime := match set_attr.crtime with
      | some crtime => max crtime attr.crtime
      | none => attr.crtime,
    perm := match set_attr.perm with
      | some perm => perm
      | none => attr.perm,
    uid := match set_attr.uid with
      | some uid => uid
      | none => attr.uid,
    gid := match set_attr.gid with
      | some gid => gid
      | none => attr.gid,
    flags := match set_attr.flags with
      | some flags => flags
      | none => attr.flags }

/-- Lookup in an association list modelling a `HashMap<u64, V>`. -/
def alistGet {α : Type} (m : List (Nat × α)) (k : Nat) : Option α :=
  match m.find? (fun p => p.1 == k) with
  | some p => some p.2
  | none => none

/-- Insert into an association list with `HashMap::insert` semantics: the new
binding replaces any previous binding of the key. -/
def alistInsert {α : Type} (m : List (Nat × α)) (k : Nat) (v : α) : List (Nat × α) :=
  (k, v) :: m.filter (fun p => p.1 != k)

/-- Removal with `HashMap::remove` semantics (the removed value, if any, is
recovered separately with `alistGet`). -/
def alistRemove {α : Type} (m : List (Nat × α)) (k : Nat) : List (Nat × α) :=
  m.filter (fun p => p.1 != k)

/-- `HashMap::contains_key`. -/
def alistContains {α : Type} (m : List (Nat × α)) (k : Nat) : Bool :=
  (alistGet m k).isSome

/-- Cached live-handle attribute snapshot, from `TimeAndSizeFileAttr` in
`encryptedfs.rs`. -/
structure TimeAndSizeFileAttr where
  atime : Nat
  mtime : Nat
  ctime : Nat
  crtime : Nat
  size : Nat
deriving DecidableEq, Repr

/-- Conversion `impl From<FileAttr> for TimeAndSizeFileAttr`. -/
def timeAndSizeOfFileAttr (value : FileAttr) : TimeAndSizeFileAttr :=
  { atime := value.atime
    mtime := value.mtime
    ctime := value.ctime
    crtime := value.crtime
    size := value.size }

/-- Conversion `impl From<TimeAndSizeFileAttr> for SetFileAttr`: the default
builder with the four timestamps and the size set. -/
def setAttrOfTimeAndSize (value : TimeAndSizeFileAttr) : SetFileAttr :=
  ((((SetFileAttr.default.with_atime value.atime).with_mtime
    value.mtime).with_ctime value.ctime).with_crtime value.crtime).with_size value.size

/-- Read-handle context, from `ReadHandleContext`: the bound inode, the
time-and-size snapshot, and the streaming cipher reader, of which the model
keeps the observable stream position. -/
structure ReadHandleContext where
  ino : Nat
  attr : TimeAndSizeFileAttr
  pos : Nat
deriving DecidableEq, Repr

/-- Write-handle context, from `WriteHandleContext`: the bound inode, the
snapshot, and the streaming cipher writer, of which the model keeps the
observable stream position. -/
structure WriteHandleContext where
  ino : Nat
  attr : TimeAndSizeFileAttr
  pos : Nat
deriving DecidableEq, Repr

/-- One entry of a directory's `ls/` index: the on-disk file name and the
encrypted `(ino, kind)` payload.  Logical-name encryption is deterministic and
injective given the master key (spec §4.4), so on-disk names are modelled by
the logical names themselves; the synthetic entries keep their literal
on-disk names `$.` and `$..`.  The `hash/` index always mirrors `ls/`
(spec §3 invariants), so the model keeps the single index and name lookups
(`exists_by_name`) consult it. -/
structure LsEntry where
  name : String
  ino : Nat
  kind : FileType
deriving DecidableEq, Repr

/-- One content artifact under `contents/<ino>`: for a regular file the
encrypted byte stream (modelled as the plaintext byte list, since the
streaming cipher is length-preserving on plaintext and transparent to every
operation modelled here), for a directory the `ls/` index. -/
inductive ContentNode where
  | file (data : List Nat)
  | dir (ls : List LsEntry)
deriving DecidableEq, Repr

/-- Directory entry handed to callers, from `DirectoryEntry` in
`encryptedfs.rs` (the `SecretString` name is a plain string here). -/
structure DirectoryEntry where
  ino : Nat
  name : String
  kind : FileType
deriving DecidableEq, Repr

/-- The reserved root inode id, `ROOT_INODE` in `encryptedfs.rs`. -/
def ROOT_INODE : Nat := 1

/-- The filesystem state, from `struct EncryptedFs` in `encryptedfs.rs`
together with the on-disk artifacts it owns: `inodes` models the encrypted
records under `inodes/<ino>`, `contents` the artifacts under
`contents/<ino>`.  The LRU caches (attr, name, meta) are write-through and
transparent to every modelled operation, the keyed lock registries only
serialize concurrent interleavings, and the master-key vault only fails on a
wrong passphrase; none of them carries state observable here, so they are not
part of the record. -/
structure EncryptedFs where
  inodes : List (Nat × FileAttr)
  contents : List (Nat × ContentNode)
  read_handles : List (Nat × ReadHandleContext)
  write_handles : List (Nat × WriteHandleContext)
  current_handle : Nat
  opened_files_for_read : List (Nat × List Nat)
  opened_files_for_write : List (Nat × Nat)
  max_plaintext_len : Nat
deriving DecidableEq, Repr

/-- `EncryptedFs::node_exists`: the record `inodes/<ino>` exists. -/
def EncryptedFs.node_exists (st : EncryptedFs) (ino : Nat) : Bool :=
  (alistGet st.inodes ino).isSome

/-- `EncryptedFs::is_dir`: `contents/<ino>` is a directory. -/
def EncryptedFs.is_dir (st : EncryptedFs) (ino : Nat) : Bool :=
  match alistGet st.contents ino with
  | some (ContentNode.dir _) => true
  | _ => false

/-- `EncryptedFs::is_file`: `contents/<ino>` is a regular file. -/
def EncryptedFs.is_file (st : EncryptedFs) (ino : Nat) : Bool :=
  match alistGet st.contents ino with
  | some (ContentNode.file _) => true
  | _ => false

/-- Plaintext bytes of the content artifact of a regular file (empty when the
artifact is missing or is a directory; no modelled operation reads the bytes
in those states). -/
def contentData (st : EncryptedFs) (ino : Nat) : List Nat :=
  match alistGet st.contents ino with
  | some (ContentNode.file data) => data
  | _ => []

/-- `EncryptedFs::get_inode_from_storage` (lines 1195-1214): read and decrypt
the record `inodes/<ino>`; a missing record is `InodeNotFound`.  The per-inode
lock only serializes interleavings.  Decryption always succeeds under the
engine's own master key. -/
def EncryptedFs.get_inode_from_storage (st : EncryptedFs) (ino : Nat) :
    Except FsError FileAttr :=
  match alistGet st.inodes ino with
  | some attr => Except.ok attr
  | none => Except.error FsError.InodeNotFound

/-- Drop the `size` field of a sparse update, modelling `attr1.size.take()`
with the taken value discarded (`get_inode`, line 1242, and `release`,
line 1398). -/
def SetFileAttr.without_size (s : SetFileAttr) : SetFileAttr :=
  { s with size := none }

/-- `EncryptedFs::get_inode` (lines 1230-1262): fetch the stored record
(through the write-through attribute cache, which is transparent), then merge
the timestamp snapshot of every open read handle of the inode (never its
size), then merge the timestamps and size of the open write handle, if any. -/
def EncryptedFs.get_inode (st : EncryptedFs) (ino : Nat) : Except FsError FileAttr :=
  match st.get_inode_from_storage ino with
  | Except.error e => Except.error e
  | Except.ok attr =>
    let attr :=
      match alistGet st.opened_files_for_read ino with
      | some fhs =>
        fhs.foldl (fun attr fh =>
          match alistGet st.read_handles fh with
          | some ctx => merge_attr attr (setAttrOfTimeAndSize ctx.attr).without_size
          | none => attr) attr
      | none => attr
    let attr :=
      match alistGet st.opened_files_for_write ino with
      | some fh =>
        match alistGet st.write_handles fh with
        | some ctx => merge_attr attr (setAttrOfTimeAndSize ctx.attr)
        | none => attr
      | none => attr
    Except.ok attr

/-- `EncryptedFs::write_inode_to_storage` (lines 1277-1296): serialize,
encrypt and atomically rename the record into place (and write through to the
attribute cache).  Keyed by `attr.ino`, exactly as `self.ino_file(attr.ino)`. -/
def EncryptedFs.write_inode_to_storage (st : EncryptedFs) (attr : FileAttr) :
    EncryptedFs :=
  { st with inodes := alistInsert st.inodes attr.ino attr }

/-- `EncryptedFs::update_inode` (lines 1264-1275): under the per-inode update
serialization mutex, read-modify-write the record through `merge_attr`. -/
def EncryptedFs.update_inode (st : EncryptedFs) (ino : Nat) (set_attr : SetFileAttr) :
    Except FsError Unit × EncryptedFs :=
  match st.get_inode ino with
  | Except.error e => (Except.error e, st)
  | Except.ok attr =>
    (Except.ok (), st.write_inode_to_storage (merge_attr attr set_attr))

/-- `EncryptedFs::allocate_next_handle` (lines 1889-1892):
`current_handle.fetch_add(1)` — returns the counter's previous value and
advances it. -/
def EncryptedFs.allocate_next_handle (st : EncryptedFs) : Nat × EncryptedFs :=
  (st.current_handle, { st with current_handle := st.current_handle + 1 })

/-- `EncryptedFs::do_with_read_handle` (lines 1933-1966), `Create` operation:
snapshot the stored attributes, create a streaming cipher reader over the
content artifact at position 0, register the context under the handle and add
the handle to the inode's read set. -/
def EncryptedFs.do_with_read_handle (st : EncryptedFs) (handle ino : Nat) :
    Except FsError Unit × EncryptedFs :=
  match st.get_inode_from_storage ino with
  | Except.error e => (Except.error e, st)
  | Except.ok attr =>
    let ctx : ReadHandleContext :=
      { ino := ino, attr := timeAndSizeOfFileAttr attr, pos := 0 }
    let fhs := match alistGet st.opened_files_for_read ino with
      | some fhs => if fhs.contains handle then fhs else handle :: fhs
      | none => [handle]
    (Except.ok (),
      { st with
        read_handles := alistInsert st.read_handles handle ctx
        opened_files_for_read := alistInsert st.opened_files_for_read ino fhs })

/-- `EncryptedFs::do_with_write_handle` (lines 1968-2015), `Create` operation:
snapshot `get_inode` (the merged view), create a streaming cipher writer over
the content artifact, register the context under the handle and point
`opened_files_for_write[ino]` at it.  Note the source performs no check
against an existing writer of the inode: an earlier registration is simply
overwritten in `opened_files_for_write` while its context stays alive in
`write_handles`. -/
def EncryptedFs.do_with_write_handle (st : EncryptedFs) (handle ino : Nat) :
    Except FsError Unit × EncryptedFs :=
  match st.get_inode ino with
  | Except.error e => (Except.error e, st)
  | Except.ok attr =>
    let ctx : WriteHandleContext :=
      { ino := ino, attr := timeAndSizeOfFileAttr attr, pos := 0 }
    (Except.ok (),
      { st with
        write_handles := alistInsert st.write_handles handle ctx
        opened_files_for_write := alistInsert st.opened_files_for_write ino handle })

/-- `EncryptedFs::open` (lines 1576-1619).  At least one of `read`/`write`
must be set; directories are rejected; the read side allocates a handle and
registers a read context; the write side reuses or allocates the handle and
registers a write context; if the write side fails while a read context was
just created, that read context is removed from `read_handles` (the read-set
registration in `opened_files_for_read` is left behind, as in the source) and
the call reports `AlreadyOpenForWrite`; otherwise a write-side failure
propagates as-is.  The source draws the handle lazily in whichever branch
first needs it; at least one branch runs, so exactly one `fetch_add` happens
on every path past the two guards — the allocation is hoisted accordingly. -/
def EncryptedFs.open (st : EncryptedFs) (ino : Nat) (read write : Bool) :
    Except FsError Nat × EncryptedFs :=
  if !read && !write then
    (Except.error FsError.InvalidInput, st)
  else if st.is_dir ino then
    (Except.error FsError.InvalidInodeType, st)
  else
    let (handle, st) := st.allocate_next_handle
    if read then
      match st.do_with_read_handle handle ino with
      | (Except.error e, st) => (Except.error e, st)
      | (Except.ok _, st) =>
        if write then
          match st.do_with_write_handle handle ino with
          | (Except.error _, st) =>
            (Except.error FsError.AlreadyOpenForWrite,
              { st with read_handles := alistRemove st.read_handles handle })
          | (Except.ok _, st) => (Except.ok handle, st)
        else (Except.ok handle, st)
    else
      match st.do_with_write_handle handle ino with
      | (Except.error e, st) => (Except.error e, st)
      | (Except.ok _, st) => (Except.ok handle, st)

/-- `EncryptedFs::read` (lines 1307-1364).  The caller's buffer is modelled by
its length `bufLen`; the returned value is the filled prefix, whose length is
the `usize` the Rust function returns.  Validation order is the source's:
inode record exists, content is a regular file, the handle is a live read
handle, the handle is bound to `ino`, the (redundant) directory re-check, the
empty-buffer no-op.  The streaming cipher reader is modelled from the spec
(§4.6): seeking clamps at EOF, and when the achieved position differs from the
requested offset the call returns 0 bytes; `stream_util::read` fills up to
`bufLen` bytes from the position, short reads at EOF permitted.  On a
successful read the context's position advances and its cached `atime` is set
to `now`. -/
def EncryptedFs.read (st : EncryptedFs) (ino offset bufLen handle now : Nat) :
    Except FsError (List Nat) × EncryptedFs :=
  if !(st.node_exists ino) then (Except.error FsError.InodeNotFound, st)
  else if !(st.is_file ino) then (Except.error FsError.InvalidInodeType, st)
  else
    match alistGet st.read_handles handle with
    | none => (Except.error FsError.InvalidFileHandle, st)
    | some ctx =>
      if ctx.ino != ino then (Except.error FsError.InvalidFileHandle, st)
      else if st.is_dir ino then (Except.error FsError.InvalidInodeType, st)
      else if bufLen == 0 then (Except.ok [], st)
      else
        let data := contentData st ino
        let pos := min offset data.length
        if pos != offset then
          (Except.ok [],
            { st with read_handles :=
                alistInsert st.read_handles handle { ctx with pos := pos } })
        else
          let bytes := (data.drop offset).take bufLen
          let ctx := { ctx with
            pos := offset + bytes.length
            attr := { ctx.attr with atime := now } }
          (Except.ok bytes,
            { st with read_handles := alistInsert st.read_handles handle ctx })

/-- `EncryptedFs::write` (lines 1448-1515).  Validation order is the
source's: inode record exists, content is a regular file, the handle is a
live write handle, the handle is bound to `ino`, the empty-buffer no-op —
which, in the source, comes BEFORE the `max_plaintext_len` check — then the
`offset > max_plaintext_len` rejection and the truncation of `buf` to keep
`offset + len ≤ max_plaintext_len`.  The streaming cipher writer is modelled
from the spec (§4.6): seeking beyond EOF zero-fills the gap, so the achieved
position always equals `offset` and the writer accepts the whole (truncated)
buffer; the write goes through to the content artifact.  The context's size
is raised to the post-write position if exceeded and `mtime`/`ctime` are set
to `now`.  The writer-to-engine `on_file_content_changed` callback only
reconciles OTHER handles of the inode and is not modelled. -/
def EncryptedFs.write (st : EncryptedFs) (ino offset : Nat) (buf : List Nat)
    (handle now : Nat) : Except FsError Nat × EncryptedFs :=
  if !(st.node_exists ino) then (Except.error FsError.InodeNotFound, st)
  else if !(st.is_file ino) then (Except.error FsError.InvalidInodeType, st)
  else
    match alistGet st.write_handles handle with
    | none => (Except.error FsError.InvalidFileHandle, st)
    | some ctx =>
      if ctx.ino != ino then (Except.error FsError.InvalidFileHandle, st)
      else if buf.isEmpty then (Except.ok 0, st)
      else if st.max_plaintext_len < offset then
        (Except.error (FsError.MaxFilesizeExceeded st.max_plaintext_len), st)
      else
        let data := contentData st ino
        let data := if data.length < offset
          then data ++ List.replicate (offset - data.length) 0
          else data
        let buf := if st.max_plaintext_len < offset + buf.length
          then buf.take (st.max_plaintext_len - offset)
          else buf
        let len := buf.length
        let pos := offset + len
        let newData := data.take offset ++ buf ++ data.drop pos
        let ctx := { ctx with
          pos := pos
          attr := { ctx.attr with
            size := if ctx.attr.size < pos then pos else ctx.attr.size
            mtime := now
            ctime := now } }
        (Except.ok len,
          { st with
            contents := alistInsert st.contents ino (ContentNode.file newData)
            write_handles := alistInsert st.write_handles handle ctx })

/-- `EncryptedFs::flush_and_reset_writers` (lines 1693-1707): flush the
inode's open writer, if any, and seek it to the start.  Flushing is
transparent here because writes go through to the content artifact. -/
def EncryptedFs.flush_and_reset_writers (st : EncryptedFs) (ino : Nat) :
    EncryptedFs :=
  match alistGet st.opened_files_for_write ino with
  | some fh =>
    match alistGet st.write_handles fh with
    | some ctx =>
      { st with write_handles := alistInsert st.write_handles fh { ctx with pos := 0 } }
    | none => st
  | none => st

/-- `EncryptedFs::reset_handles` (lines 1894-1931): for every open read
handle of the inode other than `skip_fh`, rewind the reader to 0 when its
position exceeds `pos`; then, unless the inode's registered writer is
`skip_fh`, flush it, rewind it to 0 and refresh its cached size from storage
(a missing inode record propagates as an error, from the `?` on
`get_inode_from_storage`). -/
def EncryptedFs.reset_handles (st : EncryptedFs) (ino : Nat) (pos : Int)
    (skip_fh : Option Nat) : Except FsError Unit × EncryptedFs :=
  let st :=
    match alistGet st.opened_files_for_read ino with
    | some fhs =>
      fhs.foldl (fun st fh =>
        if skip_fh == some fh then st
        else
          match alistGet st.read_handles fh with
          | some ctx =>
            if (ctx.pos : Int) > pos then
              { st with read_handles := alistInsert st.read_handles fh { ctx with pos := 0 } }
            else st
          | none => st) st
    | none => st
  match alistGet st.opened_files_for_write ino with
  | some fh =>
    if skip_fh == some fh then (Except.ok (), st)
    else
      match alistGet st.write_handles fh with
      | some ctx =>
        match st.get_inode_from_storage ino with
        | Except.error e => (Except.error e, st)
        | Except.ok attr =>
          let ctx' := { ctx with pos := 0, attr := { ctx.attr with size := attr.size } }
          (Except.ok (),
            { st with write_handles := alistInsert st.write_handles fh ctx' })
      | none => (Except.ok (), st)
  | none => (Except.ok (), st)

/-- `EncryptedFs::truncate` (lines 1623-1688).  Reads the merged attributes
via `get_inode`; rejects directories; RETURNS IMMEDIATELY WITHOUT ANY EFFECT
when `size == attr.size`; otherwise flushes and rewinds the open writer,
rewrites the content artifact (truncate-to-zero recreates it empty; otherwise
copy `min(size, attr.size)` bytes and zero-fill any extension), updates the
inode record with the new size and fresh `mtime`/`ctime`, and resets the
inode's handles. -/
def EncryptedFs.truncate (st : EncryptedFs) (ino size now : Nat) :
    Except FsError Unit × EncryptedFs :=
  match st.get_inode ino with
  | Except.error e => (Except.error e, st)
  | Except.ok attr =>
    if attr.kind == FileType.Directory then (Except.error FsError.InvalidInodeType, st)
    else if size == attr.size then (Except.ok (), st)
    else
      let st := st.flush_and_reset_writers ino
      let newData :=
        if size == 0 then []
        else
          let data := contentData st ino
          let len := if attr.size < size then attr.size else size
          data.take len ++
            (if attr.size < size then List.replicate (size - attr.size) 0 else [])
      let st := { st with contents := alistInsert st.contents ino (ContentNode.file newData) }
      match st.update_inode ino
          (((SetFileAttr.default.with_size size).with_mtime now).with_ctime now) with
      | (Except.error e, st) => (Except.error e, st)
      | (Except.ok _, st) => st.reset_handles ino 0 none

/-- The `while copied < size` loop of `EncryptedFs::copy_file_range`
(lines 1562-1572): write the slice `buf[copied..len]` to the destination at
`dest_offset`, fail with `Other` when a write yields 0 while `copied < size`,
and accumulate `copied`.  Returns the final `copied` total on success. -/
def copyLoop (st : EncryptedFs) (dest_ino dest_offset : Nat) (buf : List Nat)
    (len dest_fh now size copied : Nat) : Except FsError Nat × EncryptedFs :=
  if _h : copied < size then
    match st.write dest_ino dest_offset ((buf.take len).drop copied) dest_fh now with
    | (Except.error e, st') => (Except.error e, st')
    | (Except.ok len2, st') =>
      if _h2 : len2 = 0 then (Except.error FsError.Other, st')
      else copyLoop st' dest_ino dest_offset buf len dest_fh now size (copied + len2)
  else (Except.ok copied, st)
termination_by size - copied
decreasing_by omega

/-- `EncryptedFs::copy_file_range` (lines 1543-1574): reject directories;
read up to `size` bytes from the source into a `size`-byte zero buffer; a
0-byte read returns 0; otherwise run the write loop and return `len`, the
number of bytes read. -/
def EncryptedFs.copy_file_range (st : EncryptedFs)
    (src_ino src_offset dest_ino dest_offset size src_fh dest_fh now : Nat) :
    Except FsError Nat × EncryptedFs :=
  if st.is_dir src_ino || st.is_dir dest_ino then
    (Except.error FsError.InvalidInodeType, st)
  else
    match st.read src_ino src_offset size src_fh now with
    | (Except.error e, st) => (Except.error e, st)
    | (Except.ok bytes, st) =>
      let len := bytes.length
      let buf := bytes ++ List.replicate (size - len) 0
      if len == 0 then (Except.ok 0, st)
      else
        match copyLoop st dest_ino dest_offset buf len dest_fh now size 0 with
        | (Except.error e, st) => (Except.error e, st)
        | (Except.ok _, st) => (Except.ok len, st)

/-- Creation attributes, from `CreateFileAttr` in `encryptedfs.rs`. -/
structure CreateFileAttr where
  kind : FileType
  perm : Nat
  uid : Nat
  gid : Nat
  rdev : Nat
  flags : Nat
deriving DecidableEq, Repr

/-- Conversion `impl From<CreateFileAttr> for FileAttr`: zero
ino/size/blocks/blksize, all four timestamps set to now, `nlink` 2 for a
directory and 1 otherwise. -/
def fileAttrOfCreate (value : CreateFileAttr) (now : Nat) : FileAttr :=
  { ino := 0
    size := 0
    blocks := 0
    atime := now
    mtime := now
    ctime := now
    crtime := now
    kind := value.kind
    perm := value.perm
    nlink := if value.kind == FileType.Directory then 2 else 1
    uid := value.uid
    gid := value.gid
    rdev := value.rdev
    blksize := 0
    flags := value.flags }

/-- `EncryptedFs::exists_by_name` (lines 990-1000): after the parent checks,
stat the `hash/<keyed-hash(name)>` artifact without decrypting anything.  The
keyed hash is deterministic and collision-free (spec §3), and `hash/` mirrors
`ls/`, so the model consults the single index by name. -/
def EncryptedFs.exists_by_name (st : EncryptedFs) (parent : Nat) (name : String) :
    Except FsError Bool :=
  if !(st.node_exists parent) then Except.error FsError.InodeNotFound
  else if !(st.is_dir parent) then Except.error FsError.InvalidInodeType
  else
    match alistGet st.contents parent with
    | some (ContentNode.dir ls) => Except.ok (ls.any (fun e => e.name == name))
    | _ => Except.ok false

/-- `EncryptedFs::insert_directory_entry` (lines 2057-2131): write the `ls/`
artifact (payload `(ino, kind)`) and the mirroring `hash/` artifact; an
existing artifact of the same name is atomically overwritten.  Writing under
a missing contents directory fails with an I/O error. -/
def EncryptedFs.insert_directory_entry (st : EncryptedFs) (dir : Nat)
    (entry : LsEntry) : Except FsError Unit × EncryptedFs :=
  match alistGet st.contents dir with
  | some (ContentNode.dir ls) =>
    let ls := entry :: ls.filter (fun e => e.name != entry.name)
    (Except.ok (), { st with contents := alistInsert st.contents dir (ContentNode.dir ls) })
  | _ => (Except.error FsError.Io, st)

/-- `EncryptedFs::create_directory_entry` (lines 1080-1155): translate the
synthetic on-disk names `$.` and `$..` to `.` and `..`, decrypt every other
on-disk name to the logical name (deterministic, through the name cache), and
decrypt the `(ino, kind)` payload (through the meta cache).  Name and payload
decryption under the engine's own key succeed. -/
def EncryptedFs.create_directory_entry (st : EncryptedFs) (entry : LsEntry) :
    DirectoryEntry :=
  let _ := st
  let name := if entry.name == "$." then "."
    else if entry.name == "$.." then ".."
    else entry.name
  { ino := entry.ino, name := name, kind := entry.kind }

/-- `EncryptedFs::create_directory_entry_iterator` (lines 1163-1192): map
`create_directory_entry` over the `ls/` listing.  The `offset` parameter is
accepted but not used — the `.skip(offset as usize)` in the source is
commented out. -/
def EncryptedFs.create_directory_entry_iterator (st : EncryptedFs)
    (ls : List LsEntry) (offset : Nat) : List DirectoryEntry :=
  let _ := offset
  ls.map st.create_directory_entry

/-- `EncryptedFs::read_dir` (lines 1003-1011): error with `InvalidInodeType`
unless `contents/<ino>/ls` is a directory, then produce the entry sequence
via `create_directory_entry_iterator`. -/
def EncryptedFs.read_dir (st : EncryptedFs) (ino offset : Nat) :
    Except FsError (List DirectoryEntry) :=
  match alistGet st.contents ino with
  | some (ContentNode.dir ls) =>
    Except.ok (st.create_directory_entry_iterator ls offset)
  | _ => Except.error FsError.InvalidInodeType

/-- `EncryptedFs::create_nod` (lines 652-801).  Rejects `.`/`..` names, a
missing parent, and an existing name; the fresh inode id drawn from the
CSPRNG with rejection (`generate_next_inode`, lines 2168-2181) is modelled by
the parameter `freshIno`, which the rejection loop guarantees to be
`> ROOT_INODE` and not in use.  The parallel subtasks of the source (content
artifact creation, parent-entry insertion, parent timestamp update) are all
awaited before the call returns and touch disjoint state; they are serialized
here in program order.  A regular file with `read`/`write` set is opened and
its handle returned; otherwise the handle is 0. -/
def EncryptedFs.create_nod (st : EncryptedFs) (parent : Nat) (name : String)
    (create_attr : CreateFileAttr) (read write : Bool) (freshIno now : Nat) :
    Except FsError (Nat × FileAttr) × EncryptedFs :=
  if name == "." || name == ".." then (Except.error FsError.InvalidInput, st)
  else if !(st.node_exists parent) then (Except.error FsError.InodeNotFound, st)
  else
    match st.exists_by_name parent name with
    | Except.error e => (Except.error e, st)
    | Except.ok true => (Except.error FsError.AlreadyExists, st)
    | Except.ok false =>
      let attr := { fileAttrOfCreate create_attr now with ino := freshIno }
      let st := st.write_inode_to_storage attr
      match attr.kind with
      | FileType.RegularFile =>
        let st := { st with contents := alistInsert st.contents freshIno (ContentNode.file []) }
        match st.insert_directory_entry parent { name := name, ino := freshIno, kind := attr.kind } with
        | (Except.error e, st) => (Except.error e, st)
        | (Except.ok _, st) =>
          match st.update_inode parent
              ((SetFileAttr.default.with_mtime now).with_ctime now) with
          | (Except.error e, st) => (Except.error e, st)
          | (Except.ok _, st) =>
            if read || write then
              match st.open freshIno read write with
              | (Except.error e, st) => (Except.error e, st)
              | (Except.ok handle, st) => (Except.ok (handle, attr), st)
            else (Except.ok (0, attr), st)
      | FileType.Directory =>
        let st := { st with contents := alistInsert st.contents freshIno (ContentNode.dir []) }
        match st.insert_directory_entry freshIno { name := "$.", ino := freshIno, kind := FileType.Directory } with
        | (Except.error e, st) => (Except.error e, st)
        | (Except.ok _, st) =>
          match st.insert_directory_entry freshIno { name := "$..", ino := parent, kind := FileType.Directory } with
          | (Except.error e, st) => (Except.error e, st)
          | (Except.ok _, st) =>
            match st.insert_directory_entry parent { name := name, ino := freshIno, kind := attr.kind } with
            | (Except.error e, st) => (Except.error e, st)
            | (Except.ok _, st) =>
              match st.update_inode parent
                  ((SetFileAttr.default.with_mtime now).with_ctime now) with
              | (Except.error e, st) => (Except.error e, st)
              | (Except.ok _, st) => (Except.ok (0, attr), st)

/-- `EncryptedFs::new` (lines 581-634) together with `ensure_root_exists`
(lines 2017-2055) on a fresh data directory: empty handle tables and indices,
`current_handle` initialized to 1, and the root inode (a directory with
permissions `0o755` and its synthetic `$.` entry) created.  `max_plaintext_len`
is the fixed bound of the configured `Cipher`. -/
def EncryptedFs.new (maxPlaintextLen now : Nat) : EncryptedFs :=
  let rootAttr := { fileAttrOfCreate
    { kind := FileType.Directory, perm := 0o755, uid := 0, gid := 0, rdev := 0, flags := 0 }
    now with ino := ROOT_INODE }
  { inodes := [(ROOT_INODE, rootAttr)]
    contents := [(ROOT_INODE, ContentNode.dir [{ name := "$.", ino := ROOT_INODE, kind := FileType.Directory }])]
    read_handles := []
    write_handles := []
    current_handle := 1
    opened_files_for_read := []
    opened_files_for_write := []
    max_plaintext_len := maxPlaintextLen }

/-- A concrete regular-file attribute record used for evaluations: inode 2,
size 3. -/
def sampleAttr : FileAttr :=
  { ino := 2
    size := 3
    blocks := 0
    atime := 0
    mtime := 0
    ctime := 0
    crtime := 0
    kind := FileType.RegularFile
    perm := 0o644
    nlink := 1
    uid := 0
    gid := 0
    rdev := 0
    blksize := 0
    flags := 0 }

/-- The handle snapshot of `sampleAttr`. -/
def sampleTs : TimeAndSizeFileAttr := timeAndSizeOfFileAttr sampleAttr

/-- A concrete state: regular file inode 2 with bytes `[10, 20, 30]`, one
open read handle 4 and one open write handle 5 on it, handle counter at 6,
cipher limit 100. -/
def sampleSt : EncryptedFs :=
  { inodes := [(2, sampleAttr)]
    contents := [(2, ContentNode.file [10, 20, 30])]
    read_handles := [(4, { ino := 2, attr := sampleTs, pos := 0 })]
    write_handles := [(5, { ino := 2, attr := sampleTs, pos := 0 })]
    current_handle := 6
    opened_files_for_read := [(2, [4])]
    opened_files_for_write := [(2, 5)]
    max_plaintext_len := 100 }

/-- A fresh filesystem (root only) extended with an unopened regular file at
inode 2: the state reached by `new` followed by `create_nod` of a file
without read/write flags. -/
def openSt : EncryptedFs :=
  let st := EncryptedFs.new 100 0
  { st with
    inodes := (2, sampleAttr) :: st.inodes
    contents := (2, ContentNode.file [10, 20, 30]) :: st.contents }

/-- A concrete sparse update: `atime := 7`, `size := 9`, everything else
absent. -/
def c4Set : SetFileAttr := (SetFileAttr.default.with_atime 7).with_size 9

/-- The attribute record stored for inode 2 after
`sampleSt.update_inode 2 c4Set`. -/
def c8New : FileAttr :=
  match alistGet ((sampleSt.update_inode 2 c4Set).2).inodes 2 with
  | some a => a
  | none => sampleAttr

/-- A copy scenario: source regular file inode 2 with bytes `D` (read handle
4), destination regular file inode 3 with bytes `E` (write handle 5). -/
def copyState (D E : List Nat) (maxPl : Nat) : EncryptedFs :=
  { inodes := [(2, { sampleAttr with ino := 2, size := D.length }),
               (3, { sampleAttr with ino := 3, size := E.length })]
    contents := [(2, ContentNode.file D), (3, ContentNode.file E)]
    read_handles := [(4, { ino := 2, attr := { sampleTs with size := D.length }, pos := 0 })]
    write_handles := [(5, { ino := 3, attr := { sampleTs with size := E.length }, pos := 0 })]
    current_handle := 6
    opened_files_for_read := [(2, [4])]
    opened_files_for_write := [(3, 5)]
    max_plaintext_len := maxPl }

/-- The read context after a successful `read`: position advanced past the
bytes read, cached `atime` refreshed (lines 1342-1360 of the source). -/
def readCtxAfter (ctx : ReadHandleContext) (pos now : Nat) : ReadHandleContext :=
  { ctx with pos := pos, attr := { ctx.attr with atime := now } }

/-- The write context after a successful `write`: position advanced past the
bytes written, cached size raised to the position when exceeded,
`mtime`/`ctime` refreshed (lines 1502-1511 of the source). -/
def writeCtxAfter (ctx : WriteHandleContext) (pos now : Nat) : WriteHandleContext :=
  { ctx with
    pos := pos
    attr := { ctx.attr with
      size := if ctx.attr.size < pos then pos else ctx.attr.size
      mtime := now
      ctime := now } }

/-- Two attribute records agree on the five fields that `SetFileAttr` cannot
express and `merge_attr` never assigns: `ino`, `kind`, `nlink`, `blocks`,
`blksize`. -/
def sameFrame (a b : FileAttr) : Prop :=
  a.ino = b.ino ∧ a.kind = b.kind ∧ a.nlink = b.nlink ∧
    a.blocks = b.blocks ∧ a.blksize = b.blksize

theorem find?_filter_ne {α : Type} (m : List (Nat × α)) (k k' : Nat) (h : k' ≠ k) :
    (m.filter (fun p => p.1 != k)).find? (fun p => p.1 == k') =
      m.find? (fun p => p.1 == k') := by
  induction m with
  | nil => rfl
  | cons p rest ih =>
    by_cases hp : p.1 = k
    · have h2 : (k == k') = false := by simp [Ne.symm h]
      simp [List.filter_cons, hp, List.find?_cons, h2, ih]
    · by_cases hp' : p.1 = k'
      · simp [List.filter_cons, hp, List.find?_cons, hp', h, ih]
      · simp [List.filter_cons, hp, List.find?_cons, hp', ih]

theorem alistGet_insert_self {α : Type} (m : List (Nat × α)) (k : Nat) (v : α) :
    alistGet (alistInsert m k v) k = some v := by
  simp [alistGet, alistInsert, List.find?_cons]

theorem alistGet_insert_ne {α : Type} (m : List (Nat × α)) (k k' : Nat) (v : α)
    (h : k' ≠ k) : alistGet (alistInsert m k v) k' = alistGet m k' := by
  have h2 : ((k, v).1 == k') = false := by simp [Ne.symm h]
  simp only [alistGet, alistInsert, List.find?_cons, h2]
  rw [find?_filter_ne m k k' h]

theorem merge_attr_ino (a : FileAttr) (s : SetFileAttr) :
    (merge_attr a s).ino = a.ino := rfl

theorem merge_attr_kind (a : FileAttr) (s : SetFileAttr) :
    (merge_attr a s).kind = a.kind := rfl

theorem merge_attr_nlink (a : FileAttr) (s : SetFileAttr) :
    (merge_attr a s).nlink = a.nlink := rfl

theorem merge_attr_blocks (a : FileAttr) (s : SetFileAttr) :
    (merge_attr a s).blocks = a.blocks := rfl

theorem merge_attr_blksize (a : FileAttr) (s : SetFileAttr) :
    (merge_attr a s).blksize = a.blksize := rfl

theorem is_file_not_is_dir (st : EncryptedFs) (ino : Nat)
    (h : st.is_file ino = true) : st.is_dir ino = false := by
  unfold EncryptedFs.is_file at h
  unfold EncryptedFs.is_dir
  rcases hm : alistGet st.contents ino with _ | node
  · simp [hm] at h
  · cases node with
    | file data => simp [hm]
    | dir ls => simp [hm] at h

/-- C7: for every value `f`, `SetFileAttr::default().with_flags(f)` produces
a `SetFileAttr` whose `rdev` field is `some f` and whose `flags` field
remains `none` — the builder sets `rdev` instead of `flags`, exactly as the
source does. -/
theorem with_flags_sets_rdev_not_flags (f : Nat) :
    (SetFileAttr.default.with_flags f).rdev = some f ∧
    (SetFileAttr.default.with_flags f).flags = none :=
  ⟨rfl, rfl⟩

/-- C4: the attribute merge applied by `update_inode` and `get_inode` sets
each of the four timestamps to the pointwise max of the old value and the
supplied value when the supplied value is present, overwrites `size`, `perm`,
`uid`, `gid` and `flags` with their supplied values, and consequently merged
timestamps never move backward. -/
theorem merge_attr_timestamps_max_rest_overwrite (a : FileAttr) (s : SetFileAttr) :
    (∀ t, s.atime = some t → (merge_attr a s).atime = max t a.atime) ∧
    (∀ t, s.mtime = some t → (merge_attr a s).mtime = max t a.mtime) ∧
    (∀ t, s.ctime = some t → (merge_attr a s).ctime = max t a.ctime) ∧
    (∀ t, s.crtime = some t → (merge_attr a s).crtime = max t a.crtime) ∧
    (∀ v, s.size = some v → (merge_attr a s).size = v) ∧
    (∀ v, s.perm = some v → (merge_attr a s).perm = v) ∧
    (∀ v, s.uid = some v → (merge_attr a s).uid = v) ∧
    (∀ v, s.gid = some v → (merge_attr a s).gid = v) ∧
    (∀ v, s.flags = some v → (merge_attr a s).flags = v) ∧
    a.atime ≤ (merge_attr a s).atime ∧
    a.mtime ≤ (merge_attr a s).mtime ∧
    a.ctime ≤ (merge_attr a s).ctime ∧
    a.crtime ≤ (merge_attr a s).crtime := by
  refine ⟨?_, ?_, ?_, ?_, ?_, ?_, ?_, ?_, ?_, ?_, ?_, ?_, ?_⟩
  · intro t h; simp [merge_attr, h]
  · intro t h; simp [merge_attr, h]
  · intro t h; simp [merge_attr, h]
  · intro t h; simp [merge_attr, h]
  · intro v h; simp [merge_attr, h]
  · intro v h; simp [merge_attr, h]
  · intro v h; simp [merge_attr, h]
  · intro v h; simp [merge_attr, h]
  · intro v h; simp [merge_attr, h]
  · cases h : s.atime <;> simp [merge_attr, h]
  · cases h : s.mtime <;> simp [merge_attr, h]
  · cases h : s.ctime <;> simp [merge_attr, h]
  · cases h : s.crtime <;> simp [merge_attr, h]

/-- Witness for C4 at the concrete inputs `sampleAttr` and `c4Set`
(which supplies `atime := 7` and `size := 9`). -/
theorem merge_attr_timestamps_max_rest_overwrite_witness :
    (merge_attr sampleAttr c4Set).atime = max 7 sampleAttr.atime ∧
    (merge_attr sampleAttr c4Set).size = 9 :=
  ⟨(merge_attr_timestamps_max_rest_overwrite sampleAttr c4Set).1 7 rfl,
   (merge_attr_timestamps_max_rest_overwrite sampleAttr c4Set).2.2.2.2.1 9 rfl⟩

/-- C6: for every state, directory inode and pair of offset values,
`read_dir` produces the same sequence of directory entries — the offset
parameter is accepted but has no skip effect. -/
theorem read_dir_ignores_offset (st : EncryptedFs) (d o1 o2 : Nat) :
    st.read_dir d o1 = st.read_dir d o2 := rfl

/-- C10: for every live read handle bound to a regular-file inode, `read`
with an empty buffer returns `Ok(0)` (the empty byte list) and returns the
state untouched: in particular the reader's stream position is not moved and
the handle's cached `atime` is not updated — the empty-buffer check precedes
the seek and the `atime` refresh. -/
theorem read_empty_buf_noop (st : EncryptedFs) (ino offset fh now : Nat)
    (ctx : ReadHandleContext)
    (hex : st.node_exists ino = true)
    (hf : st.is_file ino = true)
    (hh : alistGet st.read_handles fh = some ctx)
    (hino : ctx.ino = ino) :
    st.read ino offset 0 fh now = (Except.ok [], st) := by
  unfold EncryptedFs.read
  simp [hex, hf, hh, hino, is_file_not_is_dir st ino hf]

/-- Witness for C10 at `sampleSt`: an empty read through live handle 4 at
offset 7 leaves the state untouched. -/
theorem read_empty_buf_noop_witness :
    sampleSt.read 2 7 0 4 99 = (Except.ok [], sampleSt) :=
  read_empty_buf_noop sampleSt 2 7 4 99 { ino := 2, attr := sampleTs, pos := 0 }
    (by decide) (by decide) (by decide) rfl

/-- C3 counterexample: on `sampleSt` (cipher limit 100, live write handle 5
on regular-file inode 2), `write` of the EMPTY buffer at offset 101 — beyond
`max_plaintext_len` — returns `Ok 0`, not `MaxFilesizeExceeded`: in the
source the empty-buffer no-op check (line 1467) precedes the
`max_plaintext_len` check (line 1477), so the claim's "including the empty
buffer" fails. -/
theorem write_empty_buf_beyond_max_counterexample :
    sampleSt.write 2 101 [] 5 0 = (Except.ok 0, sampleSt) ∧
    (sampleSt.write 2 101 [] 5 0).1 ≠
      Except.error (FsError.MaxFilesizeExceeded 100) := by decide

/-- C3 (amended): for every live write handle on a regular-file inode,
`write` with a NONEMPTY buffer and `offset > max_plaintext_len` returns
`MaxFilesizeExceeded`; with `offset` within the limit the buffer is truncated
before writing so that `offset + len ≤ max_plaintext_len`, the returned
length being `min buf.length (max_plaintext_len - offset)`; an empty buffer
returns 0 and changes nothing regardless of `offset`, because the
empty-buffer check precedes the size check. -/
theorem write_max_filesize_checks (st : EncryptedFs) (ino offset fh now : Nat)
    (buf : List Nat) (ctx : WriteHandleContext)
    (hex : st.node_exists ino = true)
    (hf : st.is_file ino = true)
    (hh : alistGet st.write_handles fh = some ctx)
    (hino : ctx.ino = ino) :
    (buf = [] → st.write ino offset buf fh now = (Except.ok 0, st)) ∧
    (buf ≠ [] → st.max_plaintext_len < offset →
      st.write ino offset buf fh now =
        (Except.error (FsError.MaxFilesizeExceeded st.max_plaintext_len), st)) ∧
    (buf ≠ [] → offset ≤ st.max_plaintext_len →
      (st.write ino offset buf fh now).1 =
        Except.ok (min buf.length (st.max_plaintext_len - offset)) ∧
      offset + min buf.length (st.max_plaintext_len - offset) ≤
        st.max_plaintext_len) := by
  refine ⟨?_, ?_, ?_⟩
  · intro hb
    subst hb
    unfold EncryptedFs.write
    simp [hex, hf, hh, hino]
  · intro hb hofs
    have hbe : buf.isEmpty = false := by
      cases buf
      · exact absurd rfl hb
      · rfl
    unfold EncryptedFs.write
    simp [hex, hf, hh, hino, hbe, hofs]
  · intro hb hofs
    have hbe : buf.isEmpty = false := by
      cases buf
      · exact absurd rfl hb
      · rfl
    unfold EncryptedFs.write
    simp [hex, hf, hh, hino, hbe, Nat.not_lt.mpr hofs]
    constructor
    · split
      · simp [List.length_take]
        omega
      · have : buf.length ≤ st.max_plaintext_len - offset := by omega
        simp [Nat.min_eq_left this]
    · omega

/-- Witness for C3 (amended) at `sampleSt`: a 3-byte write at offset 99 with
limit 100 is truncated to a single byte. -/
theorem write_max_filesize_checks_witness :
    (sampleSt.write 2 99 [1, 2, 3] 5 0).1 =
      Except.ok (min 3 (sampleSt.max_plaintext_len - 99)) ∧
    99 + min 3 (sampleSt.max_plaintext_len - 99) ≤ sampleSt.max_plaintext_len :=
  (write_max_filesize_checks sampleSt 2 99 5 0 [1, 2, 3]
    { ino := 2, attr := sampleTs, pos := 0 }
    (by decide) (by decide) (by decide) rfl).2.2 (by decide) (by decide)

/-- C1 (failing input): on `openSt` — a fresh filesystem holding the
unopened regular file inode 2 — two consecutive calls
`open(2, read := false, write := true)` BOTH succeed: the second returns
`Ok 2` instead of failing with `AlreadyOpenForWrite`, both write contexts
stay registered in `write_handles`, and `opened_files_for_write[2]` is
silently repointed at the second handle.  `do_with_write_handle` performs no
check against an existing writer, contradicting the doc comment on `open`
("We can open multiple times for read but only one for write at a time") and
the spec's single-writer invariant. -/
theorem open_twice_for_write_both_succeed :
    (openSt.open 2 false true).1 = Except.ok 1 ∧
    (((openSt.open 2 false true).2).open 2 false true).1 = Except.ok 2 ∧
    (((openSt.open 2 false true).2).open 2 false true).1 ≠
      Except.error FsError.AlreadyOpenForWrite ∧
    (alistGet ((((openSt.open 2 false true).2).open 2 false true).2).write_handles 1).isSome =
      true ∧
    (alistGet ((((openSt.open 2 false true).2).open 2 false true).2).write_handles 2).isSome =
      true ∧
    alistGet ((((openSt.open 2 false true).2).open 2 false true).2).opened_files_for_write 2 =
      some 2 := by
  decide

/-- C5: for every regular-file inode whose current recorded size — as
reported by `get_inode`, which `truncate` itself consults — equals `S`,
`truncate(ino, S)` returns `Ok` and leaves the state completely unchanged (no
content rewrite, no inode update, no handle reset); consequently
`truncate(ino, S); truncate(ino, S)` is equivalent to the single call
`truncate(ino, S)`. -/
theorem truncate_same_size_noop (st : EncryptedFs) (ino S now now2 : Nat)
    (attr : FileAttr)
    (hget : st.get_inode ino = Except.ok attr)
    (hkind : attr.kind = FileType.RegularFile)
    (hsize : attr.size = S) :
    st.truncate ino S now = (Except.ok (), st) ∧
    ((st.truncate ino S now).2).truncate ino S now2 = st.truncate ino S now2 := by
  have h1 : st.truncate ino S now = (Except.ok (), st) := by
    unfold EncryptedFs.truncate
    rw [hget]
    simp [hkind, hsize]
  exact ⟨h1, by rw [h1]⟩

/-- Witness for C5 at `sampleSt`: inode 2 has recorded size 3 and truncating
to 3 twice equals truncating once. -/
theorem truncate_same_size_noop_witness :
    sampleSt.truncate 2 3 7 = (Except.ok (), sampleSt) ∧
    ((sampleSt.truncate 2 3 7).2).truncate 2 3 8 = sampleSt.truncate 2 3 8 :=
  truncate_same_size_noop sampleSt 2 3 7 8 sampleAttr (by decide) rfl rfl

theorem sameFrame_refl (a : FileAttr) : sameFrame a a :=
  ⟨rfl, rfl, rfl, rfl, rfl⟩

theorem sameFrame_trans {a b c : FileAttr} (h1 : sameFrame a b)
    (h2 : sameFrame b c) : sameFrame a c :=
  ⟨h1.1.trans h2.1, h1.2.1.trans h2.2.1, h1.2.2.1.trans h2.2.2.1,
   h1.2.2.2.1.trans h2.2.2.2.1, h1.2.2.2.2.trans h2.2.2.2.2⟩

theorem sameFrame_merge (a : FileAttr) (s : SetFileAttr) :
    sameFrame (merge_attr a s) a :=
  ⟨rfl, rfl, rfl, rfl, rfl⟩

theorem foldl_merge_sameFrame {g : FileAttr → Nat → FileAttr}
    (hg : ∀ a fh, sameFrame (g a fh) a) (l : List Nat) :
    ∀ a, sameFrame (l.foldl g a) a := by
  induction l with
  | nil => intro a; exact sameFrame_refl a
  | cons x xs ih =>
    intro a
    exact sameFrame_trans (ih (g a x)) (hg a x)

theorem get_inode_sameFrame (st : EncryptedFs) (ino : Nat) (attr : FileAttr)
    (h : st.get_inode ino = Except.ok attr) :
    ∃ base, alistGet st.inodes ino = some base ∧ sameFrame attr base := by
  unfold EncryptedFs.get_inode EncryptedFs.get_inode_from_storage at h
  cases hb : alistGet st.inodes ino with
  | none => rw [hb] at h; cases h
  | some base =>
    rw [hb] at h
    simp only [Except.ok.injEq] at h
    refine ⟨base, rfl, ?_⟩
    subst h
    have hread : sameFrame
        (match alistGet st.opened_files_for_read ino with
          | some fhs =>
            fhs.foldl (fun attr fh =>
              match alistGet st.read_handles fh with
              | some ctx => merge_attr attr (setAttrOfTimeAndSize ctx.attr).without_size
              | none => attr) base
          | none => base) base := by
      cases alistGet st.opened_files_for_read ino with
      | none => exact sameFrame_refl base
      | some fhs =>
        refine foldl_merge_sameFrame ?_ fhs base
        intro a fh
        cases alistGet st.read_handles fh with
        | none => exact sameFrame_refl a
        | some ctx => exact sameFrame_merge a _
    refine sameFrame_trans ?_ hread
    cases alistGet st.opened_files_for_write ino with
    | none => exact sameFrame_refl _
    | some fh =>
      dsimp only
      cases alistGet st.write_handles fh with
      | none => exact sameFrame_refl _
      | some ctx => exact sameFrame_merge _ _

/-- C8: for every inode and every `SetFileAttr` argument (under the storage
well-formedness invariant that each record is keyed by its own `ino`),
`update_inode` leaves every stored record's `ino`, `kind`, `nlink`, `blocks`
and `blksize` unchanged: `SetFileAttr` has no fields for them and neither
`merge_attr` nor the handle-snapshot merge in `get_inode` ever assigns them,
so no sequence of `update_inode` calls can alter an inode's identity, type,
link count or block accounting. -/
theorem update_inode_preserves_identity (st : EncryptedFs) (ino : Nat)
    (sa : SetFileAttr) (r : Except FsError Unit) (st' : EncryptedFs)
    (hwf : ∀ k a, alistGet st.inodes k = some a → a.ino = k)
    (h : st.update_inode ino sa = (r, st')) :
    ∀ i a', alistGet st'.inodes i = some a' →
      ∃ a, alistGet st.inodes i = some a ∧ a'.ino = a.ino ∧ a'.kind = a.kind ∧
        a'.nlink = a.nlink ∧ a'.blocks = a.blocks ∧ a'.blksize = a.blksize := by
  unfold EncryptedFs.update_inode at h
  cases hg : st.get_inode ino with
  | error e =>
    rw [hg] at h
    simp only [Prod.mk.injEq] at h
    rw [← h.2]
    intro i a' hi
    exact ⟨a', hi, rfl, rfl, rfl, rfl, rfl⟩
  | ok attr =>
    rw [hg] at h
    simp only [Prod.mk.injEq] at h
    rw [← h.2]
    obtain ⟨base, hbase, hframe⟩ := get_inode_sameFrame st ino attr hg
    have hkey : (merge_attr attr sa).ino = ino := by
      rw [merge_attr_ino, hframe.1]
      exact hwf ino base hbase
    intro i a' hi
    unfold EncryptedFs.write_inode_to_storage at hi
    simp only at hi
    by_cases hik : i = ino
    · subst hik
      rw [hkey, alistGet_insert_self] at hi
      cases hi
      refine ⟨base, hbase, ?_, ?_, ?_, ?_, ?_⟩
      · rw [merge_attr_ino, hframe.1]
      · rw [merge_attr_kind, hframe.2.1]
      · rw [merge_attr_nlink, hframe.2.2.1]
      · rw [merge_attr_blocks, hframe.2.2.2.1]
      · rw [merge_attr_blksize, hframe.2.2.2.2]
    · rw [hkey, alistGet_insert_ne st.inodes ino i _ hik] at hi
      exact ⟨a', hi, rfl, rfl, rfl, rfl, rfl⟩

/-- Witness for C8 at `sampleSt` and the concrete update `c4Set`: the record
stored for inode 2 afterwards (`c8New`) keeps identity, type, link count and
block accounting. -/
theorem update_inode_preserves_identity_witness :
    ∃ a, alistGet sampleSt.inodes 2 = some a ∧ c8New.ino = a.ino ∧
      c8New.kind = a.kind ∧ c8New.nlink = a.nlink ∧ c8New.blocks = a.blocks ∧
      c8New.blksize = a.blksize := by
  have hwf : ∀ k a, alistGet sampleSt.inodes k = some a → a.ino = k := by
    intro k a h
    by_cases hk : k = 2
    · subst hk
      have h2 : alistGet sampleSt.inodes 2 = some sampleAttr := by decide
      rw [h2] at h
      cases h
      decide
    · have hbeq : ((2 : Nat) == k) = false := beq_eq_false_iff_ne.mpr (Ne.symm hk)
      have h2 : alistGet sampleSt.inodes k = none := by
        simp [sampleSt, alistGet, List.find?_cons, hbeq]
      rw [h2] at h
      cases h
  exact update_inode_preserves_identity sampleSt 2 c4Set
    ((sampleSt.update_inode 2 c4Set).1) ((sampleSt.update_inode 2 c4Set).2)
    hwf rfl 2 c8New (by decide)

theorem do_with_read_handle_current (st : EncryptedFs) (h ino : Nat) :
    ((st.do_with_read_handle h ino).2).current_handle = st.current_handle := by
  unfold EncryptedFs.do_with_read_handle
  cases st.get_inode_from_storage ino <;> rfl

theorem do_with_write_handle_current (st : EncryptedFs) (h ino : Nat) :
    ((st.do_with_write_handle h ino).2).current_handle = st.current_handle := by
  unfold EncryptedFs.do_with_write_handle
  cases st.get_inode ino <;> rfl

theorem write_inode_current (st : EncryptedFs) (attr : FileAttr) :
    (st.write_inode_to_storage attr).current_handle = st.current_handle := rfl

theorem insert_directory_entry_current (st : EncryptedFs) (dir : Nat)
    (entry : LsEntry) :
    ((st.insert_directory_entry dir entry).2).current_handle = st.current_handle := by
  unfold EncryptedFs.insert_directory_entry
  cases alistGet st.contents dir with
  | none => rfl
  | some node => cases node <;> rfl

theorem update_inode_current (st : EncryptedFs) (ino : Nat) (sa : SetFileAttr) :
    ((st.update_inode ino sa).2).current_handle = st.current_handle := by
  unfold EncryptedFs.update_inode
  cases st.get_inode ino <;> rfl

theorem open_ok_handle (st : EncryptedFs) (ino : Nat) (read write : Bool)
    (fh : Nat) (st' : EncryptedFs)
    (h : st.open ino read write = (Except.ok fh, st')) :
    fh = st.current_handle ∧ st'.current_handle = st.current_handle + 1 := by
  unfold EncryptedFs.open at h
  by_cases hrw : (!read && !write) = true
  · rw [if_pos hrw] at h
    cases h
  · rw [if_neg hrw] at h
    by_cases hd : st.is_dir ino = true
    · rw [if_pos hd] at h
      cases h
    · rw [if_neg hd] at h
      simp only [EncryptedFs.allocate_next_handle] at h
      by_cases hr : read = true
      · rw [hr] at h
        simp only [if_true] at h
        rcases hread : ({ st with current_handle := st.current_handle + 1 } :
            EncryptedFs).do_with_read_handle st.current_handle ino with ⟨r2, st2⟩
        rw [hread] at h
        have hc2 : st2.current_handle = st.current_handle + 1 := by
          have := do_with_read_handle_current
            { st with current_handle := st.current_handle + 1 } st.current_handle ino
          rw [hread] at this
          exact this
        cases r2 with
        | error e => cases h
        | ok u =>
          by_cases hw : write = true
          · rw [hw] at h
            simp only [if_true] at h
            rcases hwrite : st2.do_with_write_handle st.current_handle ino with ⟨r3, st3⟩
            rw [hwrite] at h
            have hc3 : st3.current_handle = st2.current_handle := by
              have := do_with_write_handle_current st2 st.current_handle ino
              rw [hwrite] at this
              exact this
            cases r3 with
            | error e => cases h
            | ok u2 =>
              simp only [Prod.mk.injEq, Except.ok.injEq] at h
              refine ⟨h.1.symm, ?_⟩
              rw [← h.2, hc3, hc2]
          · dsimp only at h
            rw [if_neg hw] at h
            simp only [Prod.mk.injEq, Except.ok.injEq] at h
            refine ⟨h.1.symm, ?_⟩
            rw [← h.2, hc2]
      · rw [if_neg hr] at h
        rcases hwrite : ({ st with current_handle := st.current_handle + 1 } :
            EncryptedFs).do_with_write_handle st.current_handle ino with ⟨r3, st3⟩
        rw [hwrite] at h
        have hc3 : st3.current_handle = st.current_handle + 1 := by
          have := do_with_write_handle_current
            { st with current_handle := st.current_handle + 1 } st.current_handle ino
          rw [hwrite] at this
          exact this
        cases r3 with
        | error e => cases h
        | ok u2 =>
          simp only [Prod.mk.injEq, Except.ok.injEq] at h
          exact ⟨h.1.symm, by rw [← h.2, hc3]⟩

theorem create_nod_open_handle (st : EncryptedFs) (parent : Nat) (name : String)
    (ca : CreateFileAttr) (read write : Bool) (freshIno cnow fh : Nat)
    (attr : FileAttr) (st' : EncryptedFs)
    (hkind : ca.kind = FileType.RegularFile)
    (hrw : (read || write) = true)
    (h : st.create_nod parent name ca read write freshIno cnow =
      (Except.ok (fh, attr), st')) :
    fh = st.current_handle ∧ st'.current_handle = st.current_handle + 1 := by
  unfold EncryptedFs.create_nod at h
  split at h
  · cases h
  · split at h
    · cases h
    · split at h
      · cases h
      · cases h
      · simp only [] at h
        split at h
        · -- RegularFile arm
          split at h
          · cases h
          · rename_i u1 st2 hins
            split at h
            · cases h
            · rename_i u2 st3 hupd
              split at h
              · cases h
              · rename_i handle st4 hop
                simp only [Prod.mk.injEq, Except.ok.injEq] at h
                obtain ⟨⟨hfh, _⟩, hst⟩ := h
                have hc2 : st2.current_handle = st.current_handle := by
                  have hl := insert_directory_entry_current
                    { st.write_inode_to_storage
                        { fileAttrOfCreate ca cnow with ino := freshIno } with
                      contents := alistInsert
                        (st.write_inode_to_storage
                          { fileAttrOfCreate ca cnow with ino := freshIno }).contents
                        freshIno (ContentNode.file []) }
                    parent { name := name, ino := freshIno,
                             kind := ({ fileAttrOfCreate ca cnow with ino := freshIno } : FileAttr).kind }
                  rw [hins] at hl
                  exact hl
                have hc3 : st3.current_handle = st2.current_handle := by
                  have hl := update_inode_current st2 parent
                    ((SetFileAttr.default.with_mtime cnow).with_ctime cnow)
                  rw [hupd] at hl
                  exact hl
                have := open_ok_handle st3 freshIno read write handle st4 hop
                refine ⟨?_, ?_⟩
                · rw [← hfh, this.1, hc3, hc2]
                · rw [← hst, this.2, hc3, hc2]
        · -- Directory arm contradicts hkind
          rename_i hkd
          exfalso
          have : ({ fileAttrOfCreate ca cnow with ino := freshIno } : FileAttr).kind =
              FileType.RegularFile := by
            simp [fileAttrOfCreate, hkind]
          rw [hkd] at this
          cases this

/-- C9: the handle counter starts at 1 (`AtomicU64::new(1)` in `new`) and
`allocate_next_handle` is a fetch-add returning the counter's previous value,
so consecutive allocations yield distinct, strictly increasing values; every
successful `open` returns the pre-call counter value and advances the counter
by one; hence from any state with counter ≥ 1 (as established by `new` and
preserved ever after) every successful `open` — and the handle `create_nod`
returns for a regular file opened with `read`/`write` — is ≥ 1, and the
reserved value 0 is never handed to a live read or write context. -/
theorem handles_start_at_one_and_increase (maxPl now0 : Nat) (st : EncryptedFs) :
    (EncryptedFs.new maxPl now0).current_handle = 1 ∧
    (st.allocate_next_handle.1 = st.current_handle ∧
      (st.allocate_next_handle.2).current_handle = st.current_handle + 1 ∧
      st.allocate_next_handle.1 < (st.allocate_next_handle.2).allocate_next_handle.1) ∧
    (∀ ino read write fh st', st.open ino read write = (Except.ok fh, st') →
      fh = st.current_handle ∧ st'.current_handle = fh + 1) ∧
    (1 ≤ st.current_handle →
      ∀ ino read write fh st', st.open ino read write = (Except.ok fh, st') →
        1 ≤ fh) ∧
    (1 ≤ st.current_handle →
      ∀ parent name ca read write freshIno cnow fh attr st',
        ca.kind = FileType.RegularFile → (read || write) = true →
        st.create_nod parent name ca read write freshIno cnow =
          (Except.ok (fh, attr), st') → 1 ≤ fh) := by
  refine ⟨rfl, ⟨rfl, rfl, Nat.lt_succ_self _⟩, ?_, ?_, ?_⟩
  · intro ino read write fh st' h
    have hoh := open_ok_handle st ino read write fh st' h
    exact ⟨hoh.1, by rw [hoh.2, hoh.1]⟩
  · intro h1 ino read write fh st' h
    have hoh := open_ok_handle st ino read write fh st' h
    rw [hoh.1]
    exact h1
  · intro h1 parent name ca read write freshIno cnow fh attr st' hkind hrw h
    have hch := create_nod_open_handle st parent name ca read write freshIno cnow
      fh attr st' hkind hrw h
    rw [hch.1]
    exact h1

/-- Witness for C9 at `openSt` (counter 1): opening inode 2 for read returns
handle 1 — the counter value — and advances the counter to 2. -/
theorem handles_start_at_one_and_increase_witness :
    (1 : Nat) = openSt.current_handle ∧
    ((openSt.open 2 true false).2).current_handle = 1 + 1 :=
  (handles_start_at_one_and_increase 100 0 openSt).2.2.1 2 true false 1
    ((openSt.open 2 true false).2) (by decide)

theorem read_zero_len_eval (st : EncryptedFs) (ino offset fh now : Nat)
    (ctx : ReadHandleContext)
    (hex : st.node_exists ino = true)
    (hf : st.is_file ino = true)
    (hh : alistGet st.read_handles fh = some ctx)
    (hino : ctx.ino = ino) :
    st.read ino offset 0 fh now = (Except.ok [], st) := by
  unfold EncryptedFs.read
  simp [hex, hf, hh, hino, is_file_not_is_dir st ino hf]

theorem read_ok_eval (st : EncryptedFs) (ino offset bufLen fh now : Nat)
    (ctx : ReadHandleContext)
    (hex : st.node_exists ino = true)
    (hf : st.is_file ino = true)
    (hh : alistGet st.read_handles fh = some ctx)
    (hino : ctx.ino = ino)
    (hbl : bufLen ≠ 0)
    (hoff : offset ≤ (contentData st ino).length) :
    st.read ino offset bufLen fh now =
      (Except.ok (((contentData st ino).drop offset).take bufLen),
        { st with read_handles := alistInsert st.read_handles fh
                    (readCtxAfter ctx
                      (offset + (((contentData st ino).drop offset).take bufLen).length)
                      now) }) := by
  have hmin : min offset (contentData st ino).length = offset := Nat.min_eq_left hoff
  unfold EncryptedFs.read
  simp [readCtxAfter, hex, hf, hh, hino, is_file_not_is_dir st ino hf, hbl, hmin]

theorem write_empty_eval (st : EncryptedFs) (ino offset fh now : Nat)
    (ctx : WriteHandleContext)
    (hex : st.node_exists ino = true)
    (hf : st.is_file ino = true)
    (hh : alistGet st.write_handles fh = some ctx)
    (hino : ctx.ino = ino) :
    st.write ino offset [] fh now = (Except.ok 0, st) := by
  unfold EncryptedFs.write
  simp [hex, hf, hh, hino]

theorem write_ok_eval (st : EncryptedFs) (ino offset fh now : Nat)
    (buf : List Nat) (ctx : WriteHandleContext)
    (hex : st.node_exists ino = true)
    (hf : st.is_file ino = true)
    (hh : alistGet st.write_handles fh = some ctx)
    (hino : ctx.ino = ino)
    (hne : buf ≠ [])
    (hoff : offset ≤ (contentData st ino).length)
    (hmax : offset + buf.length ≤ st.max_plaintext_len) :
    st.write ino offset buf fh now =
      (Except.ok buf.length,
        { st with
          contents := alistInsert st.contents ino (ContentNode.file
            ((contentData st ino).take offset ++ buf ++
              (contentData st ino).drop (offset + buf.length)))
          write_handles := alistInsert st.write_handles fh
            (writeCtxAfter ctx (offset + buf.length) now) }) := by
  have hbe : buf.isEmpty = false := by
    cases buf
    · exact absurd rfl hne
    · rfl
  have hnlt : ¬ st.max_plaintext_len < offset := by omega
  have hnd : ¬ (contentData st ino).length < offset := by omega
  have hnmax : ¬ st.max_plaintext_len < offset + buf.length := by omega
  unfold EncryptedFs.write
  simp [writeCtxAfter, hex, hf, hh, hino, hbe, hnlt, hnd, hnmax]

theorem copyLoop_full (st : EncryptedFs) (dest_ino dest_offset : Nat)
    (B : List Nat) (dest_fh now size : Nat) (ctx : WriteHandleContext)
    (hBlen : B.length = size) (hpos : 0 < size)
    (hex : st.node_exists dest_ino = true)
    (hf : st.is_file dest_ino = true)
    (hh : alistGet st.write_handles dest_fh = some ctx)
    (hino : ctx.ino = dest_ino)
    (hoff : dest_offset ≤ (contentData st dest_ino).length)
    (hmax : dest_offset + size ≤ st.max_plaintext_len) :
    copyLoop st dest_ino dest_offset B size dest_fh now size 0 =
      (Except.ok size,
        { st with
          contents := alistInsert st.contents dest_ino (ContentNode.file
            ((contentData st dest_ino).take dest_offset ++ B ++
              (contentData st dest_ino).drop (dest_offset + size)))
          write_handles := alistInsert st.write_handles dest_fh
            (writeCtxAfter ctx (dest_offset + size) now) }) := by
  have hBne : B ≠ [] := by
    intro hcon
    rw [hcon] at hBlen
    simp at hBlen
    omega
  have hmax1 : dest_offset + B.length ≤ st.max_plaintext_len := by
    rw [hBlen]; exact hmax
  rw [copyLoop.eq_def]
  rw [dif_pos hpos]
  have hslice : (B.take size).drop 0 = B := by
    rw [List.drop_zero, ← hBlen, List.take_length]
  rw [hslice]
  rw [write_ok_eval st dest_ino dest_offset dest_fh now B ctx hex hf hh hino hBne hoff hmax1]
  dsimp only
  rw [dif_neg (by omega : ¬ B.length = 0)]
  rw [Nat.zero_add, hBlen]
  rw [copyLoop.eq_def]
  rw [dif_neg (by omega : ¬ size < size)]

theorem copyLoop_short (st : EncryptedFs) (dest_ino dest_offset : Nat)
    (B R : List Nat) (dest_fh now size len : Nat) (ctx : WriteHandleContext)
    (hBlen : B.length = len) (hpos : 0 < len) (hlt : len < size)
    (hex : st.node_exists dest_ino = true)
    (hf : st.is_file dest_ino = true)
    (hh : alistGet st.write_handles dest_fh = some ctx)
    (hino : ctx.ino = dest_ino)
    (hoff : dest_offset ≤ (contentData st dest_ino).length)
    (hmax : dest_offset + len ≤ st.max_plaintext_len) :
    copyLoop st dest_ino dest_offset (B ++ R) len dest_fh now size 0 =
      (Except.error FsError.Other,
        { st with
          contents := alistInsert st.contents dest_ino (ContentNode.file
            ((contentData st dest_ino).take dest_offset ++ B ++
              (contentData st dest_ino).drop (dest_offset + len)))
          write_handles := alistInsert st.write_handles dest_fh
            (writeCtxAfter ctx (dest_offset + len) now) }) := by
  have hBne : B ≠ [] := by
    intro hcon
    rw [hcon] at hBlen
    simp at hBlen
    omega
  have hmax1 : dest_offset + B.length ≤ st.max_plaintext_len := by
    rw [hBlen]; exact hmax
  rw [copyLoop.eq_def]
  rw [dif_pos (by omega : 0 < size)]
  have hslice1 : ((B ++ R).take len).drop 0 = B := by
    rw [List.drop_zero, List.take_left' hBlen]
  rw [hslice1]
  rw [write_ok_eval st dest_ino dest_offset dest_fh now B ctx hex hf hh hino hBne hoff hmax1]
  dsimp only
  rw [dif_neg (by omega : ¬ B.length = 0)]
  rw [Nat.zero_add, hBlen]
  rw [copyLoop.eq_def]
  rw [dif_pos hlt]
  have hslice2 : ((B ++ R).take len).drop len = [] := by
    rw [List.take_left' hBlen, ← hBlen, List.drop_length]
  rw [hslice2]
  set stB : EncryptedFs :=
    { st with
      contents := alistInsert st.contents dest_ino (ContentNode.file
        ((contentData st dest_ino).take dest_offset ++ B ++
          (contentData st dest_ino).drop (dest_offset + len)))
      write_handles := alistInsert st.write_handles dest_fh
        (writeCtxAfter ctx (dest_offset + len) now) } with hstB
  have hex2 : stB.node_exists dest_ino = true := hex
  have hf2 : stB.is_file dest_ino = true := by
    unfold EncryptedFs.is_file
    rw [hstB]
    dsimp only
    rw [alistGet_insert_self]
  have hh2 : alistGet stB.write_handles dest_fh =
      some (writeCtxAfter ctx (dest_offset + len) now) := by
    rw [hstB]
    dsimp only
    rw [alistGet_insert_self]
  have hino2 : (writeCtxAfter ctx (dest_offset + len) now).ino = dest_ino := hino
  rw [write_empty_eval stB dest_ino dest_offset dest_fh now _ hex2 hf2 hh2 hino2]
  dsimp only
  rw [dif_pos rfl]

theorem cfr_read_zero (D E : List Nat) (maxPl src_off dest_off size now : Nat)
    (hso : src_off ≤ D.length)
    (h0 : min size (D.length - src_off) = 0) :
    ((copyState D E maxPl).copy_file_range 2 src_off 3 dest_off size 4 5 now).1 =
      Except.ok 0 ∧
    contentData
      ((copyState D E maxPl).copy_file_range 2 src_off 3 dest_off size 4 5 now).2 3 =
      E := by
  by_cases hsz : size = 0
  · subst hsz
    exact ⟨rfl, rfl⟩
  · have hsoeq : src_off = D.length := by omega
    have hread := read_ok_eval (copyState D E maxPl) 2 src_off size 4 now
      { ino := 2, attr := { sampleTs with size := D.length }, pos := 0 }
      rfl rfl rfl rfl hsz hso
    have hBnil : ((contentData (copyState D E maxPl) 2).drop src_off).take size = [] := by
      show (D.drop src_off).take size = []
      rw [hsoeq, List.drop_length, List.take_nil]
    rw [hBnil] at hread
    unfold EncryptedFs.copy_file_range
    rw [hread]
    exact ⟨rfl, rfl⟩

theorem cfr_full_copy (D E : List Nat) (maxPl src_off dest_off size now : Nat)
    (hso : src_off ≤ D.length) (hdo : dest_off ≤ E.length)
    (hmax : dest_off + size ≤ maxPl)
    (hfull : min size (D.length - src_off) = size) (hpos : 0 < size) :
    ((copyState D E maxPl).copy_file_range 2 src_off 3 dest_off size 4 5 now).1 =
      Except.ok size ∧
    contentData
      ((copyState D E maxPl).copy_file_range 2 src_off 3 dest_off size 4 5 now).2 3 =
      E.take dest_off ++ (D.drop src_off).take size ++ E.drop (dest_off + size) := by
  have hsz : size ≠ 0 := by omega
  have hread := read_ok_eval (copyState D E maxPl) 2 src_off size 4 now
    { ino := 2, attr := { sampleTs with size := D.length }, pos := 0 }
    rfl rfl rfl rfl hsz hso
  have hBlen :
      (((contentData (copyState D E maxPl) 2).drop src_off).take size).length = size := by
    show ((D.drop src_off).take size).length = size
    rw [List.length_take, List.length_drop]
    exact hfull
  rw [hBlen] at hread
  set st1 : EncryptedFs :=
    { copyState D E maxPl with
      read_handles := alistInsert (copyState D E maxPl).read_handles 4
        (readCtxAfter { ino := 2, attr := { sampleTs with size := D.length }, pos := 0 }
          (src_off + size) now) } with hst1
  unfold EncryptedFs.copy_file_range
  rw [hread]
  dsimp only
  rw [hBlen]
  rw [Nat.sub_self, List.replicate_zero, List.append_nil]
  rw [show (size == 0) = false from beq_eq_false_iff_ne.mpr hsz]
  rw [copyLoop_full st1 3 dest_off
    (((contentData (copyState D E maxPl) 2).drop src_off).take size) 5 now size
    { ino := 3, attr := { sampleTs with size := E.length }, pos := 0 }
    hBlen hpos rfl rfl rfl rfl hdo hmax]
  exact ⟨rfl, rfl⟩

theorem cfr_short_copy (D E : List Nat) (maxPl src_off dest_off size now len : Nat)
    (hso : src_off ≤ D.length) (hdo : dest_off ≤ E.length)
    (hmax : dest_off + size ≤ maxPl)
    (hlen : min size (D.length - src_off) = len)
    (hposl : 0 < len) (hlt : len < size) :
    ((copyState D E maxPl).copy_file_range 2 src_off 3 dest_off size 4 5 now).1 =
      Except.error FsError.Other ∧
    contentData
      ((copyState D E maxPl).copy_file_range 2 src_off 3 dest_off size 4 5 now).2 3 =
      E.take dest_off ++ (D.drop src_off).take size ++ E.drop (dest_off + len) := by
  have hsz : size ≠ 0 := by omega
  have hread := read_ok_eval (copyState D E maxPl) 2 src_off size 4 now
    { ino := 2, attr := { sampleTs with size := D.length }, pos := 0 }
    rfl rfl rfl rfl hsz hso
  have hBlen :
      (((contentData (copyState D E maxPl) 2).drop src_off).take size).length = len := by
    show ((D.drop src_off).take size).length = len
    rw [List.length_take, List.length_drop]
    exact hlen
  rw [hBlen] at hread
  set st1 : EncryptedFs :=
    { copyState D E maxPl with
      read_handles := alistInsert (copyState D E maxPl).read_handles 4
        (readCtxAfter { ino := 2, attr := { sampleTs with size := D.length }, pos := 0 }
          (src_off + len) now) } with hst1
  unfold EncryptedFs.copy_file_range
  rw [hread]
  dsimp only
  rw [hBlen]
  rw [show (len == 0) = false from beq_eq_false_iff_ne.mpr (by omega)]
  rw [copyLoop_short st1 3 dest_off
    (((contentData (copyState D E maxPl) 2).drop src_off).take size)
    (List.replicate (size - len) 0) 5 now size len
    { ino := 3, attr := { sampleTs with size := E.length }, pos := 0 }
    hBlen hposl hlt rfl rfl rfl rfl hdo
    (by rw [show st1.max_plaintext_len = maxPl from rfl]; omega)]
  exact ⟨rfl, rfl⟩

/-- C2: for every `copy_file_range(src, src_off, dst, dst_off, n, src_fh,
dst_fh)` over valid handles (the parametric `copyState` family, any contents
`D`, `E`, any in-range offsets, `dst_off + n` within the cipher limit), the
call reads up to `n` bytes into a buffer and writes repeatedly until the loop
drains it, and the returned value equals the total number of bytes copied
into the destination: a 0-byte read returns 0 with the destination untouched;
a full read of `n` bytes returns `Ok n` with exactly those `n` bytes written
at `dst_off`; and the call fails with `Other` exactly in the remaining case —
a write yields 0 while `copied < n`, which happens precisely when the read
came up short (`0 < len < n`, the empty tail write), the `len` read bytes
having already reached the destination. -/
theorem copy_file_range_returns_bytes_copied (D E : List Nat)
    (maxPl src_off dest_off size now len : Nat)
    (hlen : len = min size (D.length - src_off))
    (hso : src_off ≤ D.length) (hdo : dest_off ≤ E.length)
    (hmax : dest_off + size ≤ maxPl) :
    (len = 0 →
      ((copyState D E maxPl).copy_file_range 2 src_off 3 dest_off size 4 5 now).1 =
        Except.ok 0 ∧
      contentData
        ((copyState D E maxPl).copy_file_range 2 src_off 3 dest_off size 4 5 now).2 3 =
        E) ∧
    (len = size → 0 < size →
      ((copyState D E maxPl).copy_file_range 2 src_off 3 dest_off size 4 5 now).1 =
        Except.ok size ∧
      contentData
        ((copyState D E maxPl).copy_file_range 2 src_off 3 dest_off size 4 5 now).2 3 =
        E.take dest_off ++ (D.drop src_off).take size ++ E.drop (dest_off + size)) ∧
    (0 < len → len < size →
      ((copyState D E maxPl).copy_file_range 2 src_off 3 dest_off size 4 5 now).1 =
        Except.error FsError.Other ∧
      contentData
        ((copyState D E maxPl).copy_file_range 2 src_off 3 dest_off size 4 5 now).2 3 =
        E.take dest_off ++ (D.drop src_off).take size ++ E.drop (dest_off + len)) := by
  refine ⟨?_, ?_, ?_⟩
  · intro h0
    exact cfr_read_zero D E maxPl src_off dest_off size now hso (by omega)
  · intro hfull hpos
    exact cfr_full_copy D E maxPl src_off dest_off size now hso hdo hmax (by omega) hpos
  · intro hposl hlt
    exact cfr_short_copy D E maxPl src_off dest_off size now len hso hdo hmax
      (by omega) hposl hlt

/-- Witness for C2: copying 3 bytes from offset 1 of `[1, 2, 3, 4]` into
offset 0 of a 5-byte destination returns 3 and lands the bytes `[2, 3, 4]`. -/
theorem copy_file_range_returns_bytes_copied_witness :
    ((copyState [1, 2, 3, 4] [9, 9, 9, 9, 9] 100).copy_file_range 2 1 3 0 3 4 5 0).1 =
      Except.ok 3 ∧
    contentData
      ((copyState [1, 2, 3, 4] [9, 9, 9, 9, 9] 100).copy_file_range 2 1 3 0 3 4 5 0).2 3 =
      [9, 9, 9, 9, 9].take 0 ++ ([1, 2, 3, 4].drop 1).take 3 ++ [9, 9, 9, 9, 9].drop (0 + 3) :=
  (copy_file_range_returns_bytes_copied [1, 2, 3, 4] [9, 9, 9, 9, 9] 100 1 0 3 0 3
    (by decide) (by decide) (by decide) (by decide)).2.1 rfl (by decide)

end Rencfs
